import Mathlib

/- Shallow embedding of the CFR+ lookahead solver in `Lookahead/lookahead.py`
   (PyStack).  Tensors are modelled as total functions from `Nat` indices to
   rationals; the three leading structural axes of each layer tensor
   (action slot, parent-bet slot, node) are explicit, and the trailing axes
   (batch, player, hand) are carried in the element type.  Floating-point
   arithmetic is modelled over `ℚ`, except where NaN propagation is the point
   of a claim, where a small IEEE-style value type `NpF` is used. -/

set_option maxHeartbeats 1000000

/-- numpy clip: `np.clip(x, lo, hi) = min(max(x, lo), hi)`, applied elementwise. -/
def npClip (x lo hi : ℚ) : ℚ := min (max x lo) hi

/-- Lines 88-91 of `_compute_current_strategies`: the regrets of one state of one
non-root layer are copied, clipped to `[regret_epsilon, max_number]`, and multiplied
by the empty-action mask; `a` ranges over the action axis. -/
def positiveRegretsData (eps maxN : ℚ) (regrets mask : Nat → ℚ) (a : Nat) : ℚ :=
  npClip (regrets a) eps maxN * mask a

/-- Line 94 of `_compute_current_strategies`:
`regrets_sum = np.sum(positive_regrets_data, axis=0, keepdims=True)`. -/
def regretsSum (A : Nat) (eps maxN : ℚ) (regrets mask : Nat → ℚ) : ℚ :=
  ∑ a ∈ Finset.range A, positiveRegretsData eps maxN regrets mask a

/-- Line 95 of `_compute_current_strategies`: regret matching, dividing each
positive regret by the broadcast per-state sum. -/
def currentStrategyData (A : Nat) (eps maxN : ℚ) (regrets mask : Nat → ℚ) (a : Nat) : ℚ :=
  positiveRegretsData eps maxN regrets mask a / regretsSum A eps maxN regrets mask

/-- A structural tensor: three leading structural axes (action slot,
parent-bet slot, node); the trailing axes live in the element type `α`. -/
def T3 (α : Type) : Type := Nat → Nat → Nat → α

/-- Row-major flat position of a 3-index in a shape with trailing extents `s2, s3`. -/
def flat3 (s2 s3 a b n : Nat) : Nat := (a * s2 + b) * s3 + n

/-- Inverse of `flat3`: recover the 3-index of a flat position in a shape with
trailing extents `s2, s3`. -/
def unflat3 (s2 s3 k : Nat) : Nat × Nat × Nat :=
  (k / (s2 * s3), k % (s2 * s3) / s3, k % s3)

/-- numpy reshape between two shapes with trailing extents `(s2, s3)` (old) and
`(t2, t3)` (new): positions correspond in row-major order. -/
def reshape3 {α : Type} (s2 s3 t2 t3 : Nat) (t : T3 α) : T3 α :=
  fun a b n =>
    let i := unflat3 s2 s3 (flat3 t2 t3 a b n)
    t i.1 i.2.1 i.2.2

/-- numpy transpose swapping structural axes 1 and 2
(`np.transpose(x, [0,2,1,3,4,5])`). -/
def transpose12 {α : Type} (t : T3 α) : T3 α := fun a b n => t a n b

/-- Slicing the leading structural axis from an offset (`x[off:, ...]`).
Slicing an axis with `[:lim]` keeps positions as they are, so it needs no
value-level counterpart; the limits only enter through the reshape shapes. -/
def slice0From {α : Type} (off : Nat) (t : T3 α) : T3 α := fun a b n => t (off + a) b n

/-- numpy broadcast of a leading axis of extent 1 into a larger extent
(`x * np.ones_like(y)` along axis 0). -/
def broadcast0 {α : Type} (t : T3 α) : T3 α := fun _ b n => t 0 b n

/-- Per-layer static metadata produced by the tree builder (`LookaheadBuilder`). -/
structure LayerMeta where
  actionsCount : Nat
  terminalActionsCount : Nat
  betsCount : Nat
  nonallinbetsCount : Nat
  actingPlayer : Nat

/-- Lines 106-113 of `_compute_ranges`: the previous layer's terminal-action
count, with the `d == 0` default of 0. -/
def prevTerminalActionsCount (L : Nat → LayerMeta) (d : Nat) : Nat :=
  if d = 0 then 0 else (L (d-1)).terminalActionsCount

/-- Lines 106-113 of `_compute_ranges`: the previous layer's action count,
with the `d == 0` default of 1. -/
def prevActionsCount (L : Nat → LayerMeta) (d : Nat) : Nat :=
  if d = 0 then 1 else (L (d-1)).actionsCount

/-- Lines 106-113 of `_compute_ranges`: the previous layer's bet count,
with the `d == 0` default of 1. -/
def prevBetsCount (L : Nat → LayerMeta) (d : Nat) : Nat :=
  if d = 0 then 1 else (L (d-1)).betsCount

/-- Lines 114-119 of `_compute_ranges`: the grandparent layer's non-all-in bet
count, defaulting to 1 for `d ≤ 1`. -/
def gpNonallinBetsCount (L : Nat → LayerMeta) (d : Nat) : Nat :=
  if d ≤ 1 then 1 else (L (d-2)).nonallinbetsCount

/-- Lines 114-119 of `_compute_ranges`: the grandparent layer's terminal-action
count, defaulting to 0 for `d ≤ 1`. -/
def gpTerminalActionsCount (L : Nat → LayerMeta) (d : Nat) : Nat :=
  if d ≤ 1 then 0 else (L (d-2)).terminalActionsCount

/-- Modelled from the spec: the tree builder (`Lookahead/lookahead_builder.py`,
whose code is not under `src/`) sizes the node axis of each layer so that the
broadcast in `_compute_ranges` is shape-correct: the root has a single node
slot, and layer `d+1` packs `gpNonallinBetsCount L d` grandparent bet slots for
each node slot of layer `d` ("parent/grandparent layer bookkeeping", spec
section 1; shape semantics per the data-model table of spec section 3). -/
def nodesCount (L : Nat → LayerMeta) : Nat → Nat
  | 0 => 1
  | d+1 => nodesCount L d * gpNonallinBetsCount L d

/-- One step of `_compute_ranges` (lines 104-128), computing the layer `d+1`
ranges from the layer `d` ranges and the layer `d+1` current strategies: slice
away the previous layer's terminal actions and the grandparent's all-in bet,
transpose axes 1 and 2, reshape into `[1, prev_bets, -1, ...]` (`-1` is numpy's
inferred extent, total size divided by the others), broadcast into the next
layer's shape, and finally multiply the acting player's sub-range by the
freshly computed strategy (line 128).  Elements are `batch → player → hand → ℚ`. -/
def computeRangesStep (L : Nat → LayerMeta) (d : Nat)
    (rangesD : T3 (Nat → Nat → Nat → ℚ)) (strategyNext : T3 (Nat → Nat → ℚ)) :
    T3 (Nat → Nat → Nat → ℚ) :=
  let pTAC := prevTerminalActionsCount L d
  let pAC := prevActionsCount L d
  let pBC := prevBetsCount L d
  let gpNAB := gpNonallinBetsCount L d
  let innerNodes := transpose12 (slice0From pTAC rangesD)
  let superView :=
    broadcast0 (reshape3 (nodesCount L d) gpNAB pBC
      ((pAC - pTAC) * nodesCount L d * gpNAB / pBC) innerNodes)
  fun a b n => fun bt p h =>
    superView a b n bt p h *
      (if p = (L d).actingPlayer then strategyNext a b n bt h else 1)

/-- `resolve_first_node` lines 44-45: both input ranges are written into every
structural slot of layer 0, player 0 receiving the re-solving player's range
and player 1 the opponent's. -/
def seedRoot (playerRange opponentRange : Nat → Nat → ℚ) : T3 (Nat → Nat → Nat → ℚ) :=
  fun _ _ _ => fun bt p h => if p = 0 then playerRange bt h else opponentRange bt h

/-- The layer-by-layer effect of the `for d in range(0, depth-1)` loop of
`_compute_ranges`: layer `d+1` is overwritten from the already-updated layer `d`
(the loop runs root-first, so each layer is current when read). -/
def rangesData (L : Nat → LayerMeta) (strategy : Nat → T3 (Nat → Nat → ℚ))
    (root : T3 (Nat → Nat → Nat → ℚ)) : Nat → T3 (Nat → Nat → Nat → ℚ)
  | 0 => root
  | d+1 => computeRangesStep L d (rangesData L strategy root d) (strategy (d+1))

/-- The structural coordinate of the parent (layer `d`) slot that feeds a layer
`d+1` slot `(a, b, n)` under the reshape of `_compute_ranges`: action slot
`prev_terminal_actions + b`, grandparent-bet slot `n % gpNAB`, node `n / gpNAB`. -/
def parentCoord (L : Nat → LayerMeta) (d b n : Nat) : Nat × Nat × Nat :=
  (prevTerminalActionsCount L d + b, n % gpNonallinBetsCount L d, n / gpNonallinBetsCount L d)

/-- The product of the strategies of player `p` at all ancestors of a layer-`d`
slot, read off along the parent chain of `parentCoord`: the step into layer
`e+1` contributes the layer `e+1` strategy exactly when player `p` acted at
layer `e`. -/
def reachProd (L : Nat → LayerMeta) (strategy : Nat → T3 (Nat → Nat → ℚ)) :
    Nat → Nat → Nat → Nat → Nat → Nat → Nat → ℚ
  | 0, _, _, _, _, _, _ => 1
  | d+1, a, b, n, bt, p, h =>
      (if p = (L d).actingPlayer then strategy (d+1) a b n bt h else 1) *
        reachProd L strategy d (parentCoord L d b n).1 (parentCoord L d b n).2.1
          (parentCoord L d b n).2.2 bt p h

/-- One layer-`d` step of `_compute_regrets` (lines 323-343): the per-action
CFVs of the acting player, minus the parent value gathered by the inverse
re-indexing of `_compute_ranges` (slice, transpose, reshape into
`[1, gp_bets, -1, ...]`, broadcast down the action axis), accumulated into
`regrets_data` and clipped to `[0, max_number]` (the CFR+ clip, line 343).
For `d = 2` the source leaves `ggp_layer_nonallin_bets_count` bound to the
previous loop iteration's value; it only bounds a slice of an axis of extent 1
there, so the effective count is 1, matching the explicit `elif d == 2` of
`_compute_cfvs`. -/
def computeRegretsStep (L : Nat → LayerMeta) (d : Nat)
    (regretsD : T3 (Nat → Nat → ℚ)) (cfvsD cfvsParent : T3 (Nat → Nat → Nat → ℚ))
    (maxN : ℚ) : T3 (Nat → Nat → ℚ) :=
  let gpTAC := if d ≤ 1 then 0 else (L (d-2)).terminalActionsCount
  let gpBC := if d ≤ 1 then 1 else (L (d-2)).betsCount
  let gpAC := if d ≤ 1 then 1 else (L (d-2)).actionsCount
  let ggpNAB := if d ≤ 2 then 1 else (L (d-3)).nonallinbetsCount
  let acting := (L d).actingPlayer
  let parentActingSlice : T3 (Nat → Nat → ℚ) :=
    fun a b n => fun bt h => cfvsParent a b n bt acting h
  let parentInnerNodes :=
    broadcast0 (reshape3 (nodesCount L (d-1)) ggpNAB gpBC
      ((gpAC - gpTAC) * nodesCount L (d-1) * ggpNAB / gpBC)
      (transpose12 (slice0From gpTAC parentActingSlice)))
  fun a b n => fun bt h =>
    npClip (regretsD a b n bt h + (cfvsD a b n bt acting h - parentInnerNodes a b n bt h))
      0 maxN

/-- `_compute_cumulate_average_cfvs` (lines 284-291): one root average-CFV entry
is increased by the corresponding current CFV entry only when
`iter > cfr_skip_iters` (0-based `iter`). -/
def cumulateAverageCfvs (skipIters : Nat) (avg cfvs : ℚ) (iter : Nat) : ℚ :=
  if skipIters < iter then avg + cfvs else avg

/-- One root average-CFV entry after the main loop of `_compute` (lines 69-77):
the accumulation step runs once per iteration `iter = 0, 1, ..., cfr_iters - 1`,
starting from the zero-initialised average; `cfvs i` is the entry's current CFV
at iteration `i`. -/
def averageCfvsAfterLoop (cfrIters skipIters : Nat) (cfvs : Nat → ℚ) : ℚ :=
  (List.range cfrIters).foldl (fun avg i => cumulateAverageCfvs skipIters avg (cfvs i) i) 0

/-- `_compute_normalize_average_cfvs` (lines 310-315): the accumulated root
average CFVs are divided by `cfr_iters - cfr_skip_iters`. -/
def normalizeAverageCfvs (cfrIters skipIters : Nat) (avg : ℚ) : ℚ :=
  avg / ((cfrIters : ℚ) - (skipIters : ℚ))

/-- The set of iteration indices whose CFVs are actually accumulated by
`_compute_cumulate_average_cfvs` during a resolve. -/
def accumulatedIters (cfrIters skipIters : Nat) : Finset Nat :=
  (Finset.range cfrIters).filter (fun i => skipIters < i)

/-- A floating-point value as numpy sees it: NaN, an infinity, or a finite
value (modelled as a rational). -/
inductive NpF where
  | nan : NpF
  | pinf : NpF
  | ninf : NpF
  | val : ℚ → NpF
deriving DecidableEq

/-- IEEE addition on `NpF`. -/
def NpF.add : NpF → NpF → NpF
  | nan, _ => nan
  | _, nan => nan
  | pinf, ninf => nan
  | pinf, _ => pinf
  | ninf, pinf => nan
  | ninf, _ => ninf
  | val _, pinf => pinf
  | val _, ninf => ninf
  | val a, val b => val (a + b)

/-- IEEE division on `NpF` as numpy computes it (`0/0 = nan`, nonzero `x/0 = ±inf`). -/
def NpF.div : NpF → NpF → NpF
  | nan, _ => nan
  | _, nan => nan
  | pinf, pinf => nan
  | pinf, ninf => nan
  | ninf, pinf => nan
  | ninf, ninf => nan
  | pinf, val b => if b < 0 then ninf else pinf
  | ninf, val b => if b < 0 then pinf else ninf
  | val _, pinf => val 0
  | val _, ninf => val 0
  | val a, val b =>
      if b = 0 then (if a = 0 then nan else if 0 < a then pinf else ninf) else val (a / b)

/-- The numeric NaN symptom used at lines 306-307 of
`_compute_normalize_average_strategies`: a float compares unequal to itself
exactly when it is NaN. -/
def NpF.neSelf : NpF → Bool
  | nan => true
  | _ => false

/-- `np.sum(..., axis=0)` over the action axis (line 302), as a fold from 0. -/
def npSumA : Nat → (Nat → NpF) → NpF
  | 0, _ => NpF.val 0
  | n+1, f => (npSumA n f).add (f n)

/-- `_compute_normalize_average_strategies` (lines 294-307) for one hand column
of the layer-1 average strategy: divide the per-action entries by their
cross-action sum; then (line 306) a fold entry (`action 0`) that compares
unequal to itself is set to 1, and (line 307) any remaining entry that compares
unequal to itself is set to 0. -/
def normalizeAverageStrategiesEntry (A : Nat) (avg : Nat → NpF) (a : Nat) : NpF :=
  let s := npSumA A avg
  let divided := (avg a).div s
  let afterFold := if a = 0 then (if divided.neSelf then NpF.val 1 else divided) else divided
  if afterFold.neSelf then NpF.val 0 else afterFold

/-- `get_results` line 379: the accumulated layer-1 average CFVs of player 0,
viewed as action slot by batch by hand. -/
def childrenCfvsRaw (averageCfvs1P0 : Nat → Nat → Nat → ℚ) : Nat → Nat → Nat → ℚ :=
  fun a bt h => averageCfvs1P0 a bt h

/-- `get_results` lines 381-384: the layer-1 average strategy times the root
player-0 range broadcast over the action axis. -/
def childrenScalerStrategyTimesRange (averageStrategies : Nat → Nat → Nat → ℚ)
    (ranges0P0 : Nat → Nat → ℚ) : Nat → Nat → Nat → ℚ :=
  fun a bt h => averageStrategies a bt h * ranges0P0 bt h

/-- `get_results` line 385: sum over the hand axis with keepdims, broadcast
back over the hands. -/
def childrenScalerSummed (HC : Nat) (averageStrategies : Nat → Nat → Nat → ℚ)
    (ranges0P0 : Nat → Nat → ℚ) : Nat → Nat → Nat → ℚ :=
  fun a bt _ =>
    ∑ h2 ∈ Finset.range HC, childrenScalerStrategyTimesRange averageStrategies ranges0P0 a bt h2

/-- `get_results` line 386: multiply by `cfr_iters - cfr_skip_iters`. -/
def childrenScaler (HC cfrIters skipIters : Nat) (averageStrategies : Nat → Nat → Nat → ℚ)
    (ranges0P0 : Nat → Nat → ℚ) : Nat → Nat → Nat → ℚ :=
  fun a bt h =>
    childrenScalerSummed HC averageStrategies ranges0P0 a bt h *
      ((cfrIters : ℚ) - (skipIters : ℚ))

/-- `get_results` line 387: the reported children CFVs, elementwise quotient of
the accumulated average CFVs by the scaler. -/
def childrenCfvs (HC cfrIters skipIters : Nat)
    (averageCfvs1P0 averageStrategies : Nat → Nat → Nat → ℚ)
    (ranges0P0 : Nat → Nat → ℚ) : Nat → Nat → Nat → ℚ :=
  fun a bt h =>
    childrenCfvsRaw averageCfvs1P0 a bt h /
      childrenScaler HC cfrIters skipIters averageStrategies ranges0P0 a bt h

/-- The solver phases invoked by `_compute` (lines 65-81), one constructor per
method called there. -/
inductive Phase where
  | setOpponentStartingRange : Phase
  | computeCurrentStrategies : Phase
  | computeRanges : Phase
  | computeUpdateAverageStrategies : Phase
  | computeTerminalEquities : Phase
  | computeCfvs : Phase
  | computeRegrets : Phase
  | computeCumulateAverageCfvs : Phase
  | computeNormalizeAverageStrategies : Phase
  | computeNormalizeAverageCfvs : Phase
deriving DecidableEq

/-- The body of the main loop of `_compute` (lines 69-77), in source order. -/
def iterationPhases : List Phase :=
  [Phase.setOpponentStartingRange, Phase.computeCurrentStrategies, Phase.computeRanges,
   Phase.computeUpdateAverageStrategies, Phase.computeTerminalEquities, Phase.computeCfvs,
   Phase.computeRegrets, Phase.computeCumulateAverageCfvs]

/-- The phases executed by the `for iter in range(arguments.cfr_iters)` loop. -/
def mainLoopTrace : Nat → List Phase
  | 0 => []
  | n+1 => mainLoopTrace n ++ iterationPhases

/-- The full phase trace of `_compute` (lines 65-81): the main loop followed by
the two final normalization passes, strategy first (line 79) then root CFVs
(line 81). -/
def computeTrace (cfrIters : Nat) : List Phase :=
  mainLoopTrace cfrIters ++
    [Phase.computeNormalizeAverageStrategies, Phase.computeNormalizeAverageCfvs]

/-- `resolve` (lines 49-62) delegates to `_compute` after seeding. -/
def resolveTrace (cfrIters : Nat) : List Phase := computeTrace cfrIters

/-- `resolve_first_node` (lines 35-46) delegates to `_compute` after seeding. -/
def resolveFirstNodeTrace (cfrIters : Nat) : List Phase := computeTrace cfrIters

/-- The layer-0 slices `_set_opponent_starting_range` touches, plus an abstract
remainder `rest` for all other solver state: `ranges0`/`ranges1` are the
player-0 and player-1 range slices of `layers[0].ranges_data`, `cfvs0` is the
player-0 slice of `layers[0].cfvs_data`. -/
structure GadgetLayerState (α ρ σ : Type) where
  ranges0 : ρ
  ranges1 : ρ
  cfvs0 : α
  rest : σ

/-- `_set_opponent_starting_range` (lines 394-402): when
`reconstruction_opponent_cfvs` is set, call the gadget on the current player-0
layer-0 CFV slice and the iteration index, and overwrite the player-1 range
slice with the result; otherwise do nothing.  The second component records the
gadget invocations (the arguments each call received). -/
def setOpponentStartingRangeStep {α ρ σ β : Type} (reconstructionOpponentCfvs : Option β)
    (gadget : α → Nat → ρ) (s : GadgetLayerState α ρ σ) (iteration : Nat) :
    GadgetLayerState α ρ σ × List (α × Nat) :=
  match reconstructionOpponentCfvs with
  | none => (s, [])
  | some _ => ({ s with ranges1 := gadget s.cfvs0 iteration }, [(s.cfvs0, iteration)])

/-- The seven solver phases other than `_set_opponent_starting_range` that the
main loop of `_compute` runs, as abstract state transformers in source order. -/
structure IterPhases (α ρ σ : Type) where
  currentStrategies : GadgetLayerState α ρ σ → GadgetLayerState α ρ σ
  ranges : GadgetLayerState α ρ σ → GadgetLayerState α ρ σ
  updateAverageStrategies : GadgetLayerState α ρ σ → GadgetLayerState α ρ σ
  terminalEquities : GadgetLayerState α ρ σ → GadgetLayerState α ρ σ
  cfvs : GadgetLayerState α ρ σ → GadgetLayerState α ρ σ
  regrets : GadgetLayerState α ρ σ → GadgetLayerState α ρ σ
  cumulateAverageCfvs : GadgetLayerState α ρ σ → GadgetLayerState α ρ σ

/-- One iteration of the main loop of `_compute` (lines 70-77):
`_set_opponent_starting_range` first, then the remaining phases in source
order; the gadget invocations of the iteration are returned alongside. -/
def gadgetIterationBody {α ρ σ β : Type} (recon : Option β) (gadget : α → Nat → ρ)
    (ph : IterPhases α ρ σ) (s : GadgetLayerState α ρ σ) (i : Nat) :
    GadgetLayerState α ρ σ × List (α × Nat) :=
  let r := setOpponentStartingRangeStep recon gadget s i
  (ph.cumulateAverageCfvs (ph.regrets (ph.cfvs (ph.terminalEquities
      (ph.updateAverageStrategies (ph.ranges (ph.currentStrategies r.1)))))), r.2)

/-- The first `n` iterations of the main loop of `_compute`, threading the
state and concatenating the gadget invocations in order. -/
def gadgetComputeAux {α ρ σ β : Type} (recon : Option β) (gadget : α → Nat → ρ)
    (ph : IterPhases α ρ σ) (s0 : GadgetLayerState α ρ σ) :
    Nat → GadgetLayerState α ρ σ × List (α × Nat)
  | 0 => (s0, [])
  | n+1 =>
      let p := gadgetComputeAux recon gadget ph s0 n
      let q := gadgetIterationBody recon gadget ph p.1 n
      (q.1, p.2 ++ q.2)

/-- The solver state at the start of iteration `n` of the main loop. -/
def iterStartState {α ρ σ β : Type} (recon : Option β) (gadget : α → Nat → ρ)
    (ph : IterPhases α ρ σ) (s0 : GadgetLayerState α ρ σ) (n : Nat) :
    GadgetLayerState α ρ σ :=
  (gadgetComputeAux recon gadget ph s0 n).1

/-- The gadget invocations made during the first `n` iterations of the loop. -/
def gadgetCallTrace {α ρ σ β : Type} (recon : Option β) (gadget : α → Nat → ρ)
    (ph : IterPhases α ρ σ) (s0 : GadgetLayerState α ρ σ) (n : Nat) : List (α × Nat) :=
  (gadgetComputeAux recon gadget ph s0 n).2

/-- The `Lookahead` object as far as result extraction is concerned:
`reconstruction_opponent_cfvs` (`None` until `resolve` sets it, line 17 and
line 61) and the tensors `τ` everything else lives in. -/
structure LookaheadState (τ β : Type) where
  reconstructionOpponentCfvs : Option β
  tensors : τ

/-- `Lookahead.__init__` (lines 16-20): `reconstruction_opponent_cfvs = None`. -/
def lookaheadInit {τ β : Type} (t0 : τ) : LookaheadState τ β := ⟨none, t0⟩

/-- `resolve_first_node` (lines 35-46): seed both root ranges and run
`_compute`; `reconstruction_opponent_cfvs` is not touched. -/
def resolveFirstNodeCall {τ β π : Type} (seed : π → π → τ → τ) (compute : τ → τ)
    (playerRange opponentRange : π) (s : LookaheadState τ β) : LookaheadState τ β :=
  { s with tensors := compute (seed playerRange opponentRange s.tensors) }

/-- `resolve` (lines 49-62): seed the player range, set
`reconstruction_opponent_cfvs` to the supplied opponent CFVs, and run
`_compute`. -/
def resolveCall {τ β π : Type} (seed : π → τ → τ) (compute : τ → τ)
    (playerRange : π) (opponentCfvs : β) (s : LookaheadState τ β) : LookaheadState τ β :=
  ⟨some opponentCfvs, compute (seed playerRange s.tensors)⟩

/-- The root-CFV part of the `get_results` output record: `root_cfvs` and
`root_cfvs_both_players`, each `none` when not produced. -/
structure RootCfvsResult (γ : Type) where
  rootCfvs : Option γ
  rootCfvsBothPlayers : Option (γ × γ)

/-- `get_results` lines 368-376: if `reconstruction_opponent_cfvs` is set,
`root_cfvs` is `None` and `root_cfvs_both_players` is never assigned; otherwise
`root_cfvs` is the stored player-1 average-CFV slice and
`root_cfvs_both_players` swaps the two stored player slices.  `averageCfvs`
reads `(player-0 slice, player-1 slice)` of `layers[0].average_cfvs_data` from
the tensors. -/
def getResultsRootCfvs {τ β γ : Type} (averageCfvs : τ → γ × γ) (s : LookaheadState τ β) :
    RootCfvsResult γ :=
  match s.reconstructionOpponentCfvs with
  | some _ => ⟨none, none⟩
  | none =>
      ⟨some (averageCfvs s.tensors).2,
       some ((averageCfvs s.tensors).2, (averageCfvs s.tensors).1)⟩

/-- Python dict indexing `self.action_to_index[action]` (line 234): a missing
key raises `KeyError`, aborting the call. -/
def dictLookup (m : List (Nat × Nat)) (k : Nat) : Except Unit Nat :=
  match m.lookup k with
  | none => Except.error ()
  | some v => Except.ok v

/-- `get_chance_action_cfv` (lines 219-242): look up the action's batch index
in `action_to_index` (fatal when absent), read the next-round pot size at that
index, query the value net on the updated board (which rewrites the box
outputs), and return the current player's CFV vector at the batch slot scaled
by the pot size. -/
def getChanceActionCfv {B : Type} (actionToIndex : List (Nat × Nat))
    (nextRoundPotSizes : Nat → ℚ) (currentPlayer : Nat)
    (boxOutputs : Nat → Nat → Nat → ℚ)
    (getValueOnBoard : B → (Nat → Nat → Nat → ℚ) → (Nat → Nat → Nat → ℚ))
    (action : Nat) (board : B) : Except Unit (Nat → ℚ) := do
  let batchIndex ← dictLookup actionToIndex action
  let potMult := nextRoundPotSizes batchIndex
  let outputs := getValueOnBoard board boxOutputs
  pure (fun h => outputs batchIndex currentPlayer h * potMult)

/-- Toy per-layer metadata (every layer: two actions, one of them terminal, one
bet, one non-all-in bet, player 0 acting) used to exercise the
range-propagation theorem on a concrete instance. -/
def toyMeta : Nat → LayerMeta := fun _ => ⟨2, 1, 1, 1, 0⟩

/-- A toy strategy assignment: probability 1/2 everywhere. -/
def toyStrategy : Nat → T3 (Nat → Nat → ℚ) := fun _ _ _ _ _ _ => (1 : ℚ) / 2

/-- C10: after `_compute_current_strategies`, for every state whose
empty-action mask marks at least one valid action, the normalizing per-state
regret sum is at least `regret_epsilon` (strictly positive, so no division by
zero occurs), every strategy entry is non-negative, entries at masked-invalid
actions are 0, and the strategy sums to 1 across the action axis — for all
states, including zero-reach ones, because regrets are clipped below at the
strictly positive epsilon before masking and normalization. -/
theorem compute_current_strategies_wellformed
    (A : Nat) (eps maxN : ℚ) (regrets mask : Nat → ℚ)
    (heps : 0 < eps) (hmax : eps ≤ maxN)
    (hmask : ∀ a, a < A → mask a = 0 ∨ mask a = 1)
    (hvalid : ∃ a, a < A ∧ mask a = 1) :
    eps ≤ regretsSum A eps maxN regrets mask ∧
    (∀ a, a < A → 0 ≤ currentStrategyData A eps maxN regrets mask a) ∧
    (∀ a, a < A → mask a = 0 → currentStrategyData A eps maxN regrets mask a = 0) ∧
    (∑ a ∈ Finset.range A, currentStrategyData A eps maxN regrets mask a) = 1 := by
  have hclip : ∀ r : ℚ, eps ≤ npClip r eps maxN := fun r =>
    le_min (le_max_right r eps) hmax
  have hterm : ∀ a, a < A → 0 ≤ positiveRegretsData eps maxN regrets mask a := by
    intro a ha
    rcases hmask a ha with h0 | h1
    · simp [positiveRegretsData, h0]
    · simpa [positiveRegretsData, h1] using le_trans (le_of_lt heps) (hclip (regrets a))
  obtain ⟨a0, ha0, hm0⟩ := hvalid
  have hsum : eps ≤ regretsSum A eps maxN regrets mask := by
    have h1 : positiveRegretsData eps maxN regrets mask a0 ≤
        regretsSum A eps maxN regrets mask :=
      Finset.single_le_sum (fun a ha => hterm a (Finset.mem_range.mp ha))
        (Finset.mem_range.mpr ha0)
    have h2 : eps ≤ positiveRegretsData eps maxN regrets mask a0 := by
      simpa [positiveRegretsData, hm0] using hclip (regrets a0)
    exact le_trans h2 h1
  have hSpos : 0 < regretsSum A eps maxN regrets mask := lt_of_lt_of_le heps hsum
  refine ⟨hsum, ?_, ?_, ?_⟩
  · intro a ha
    exact div_nonneg (hterm a ha) (le_of_lt hSpos)
  · intro a _ hz
    simp [currentStrategyData, positiveRegretsData, hz]
  · have hrw : (∑ a ∈ Finset.range A, currentStrategyData A eps maxN regrets mask a) =
        (∑ a ∈ Finset.range A, positiveRegretsData eps maxN regrets mask a) /
          regretsSum A eps maxN regrets mask := by
      simp only [currentStrategyData]
      rw [← Finset.sum_div]
    rw [hrw]
    exact div_self (ne_of_gt hSpos)

/-- Witness for C10 at a concrete state: two actions, both valid, epsilon 1,
clip ceiling 5, regrets constantly 2. -/
theorem compute_current_strategies_wellformed_witness :
    (0 : ℚ) < 1 ∧
    (∑ a ∈ Finset.range 2,
        currentStrategyData 2 1 5 (fun _ => 2) (fun _ => 1) a) = 1 :=
  ⟨by decide,
   (compute_current_strategies_wellformed 2 1 5 (fun _ => 2) (fun _ => 1)
      (by decide) (by decide) (fun a _ => Or.inr rfl) ⟨0, by decide, rfl⟩).2.2.2⟩

/-- C3: every entry written by one layer step of `_compute_regrets` is
non-negative: the per-iteration regret delta is added into cumulative regret
and the result is clipped to `[0, max_number]`, so it is at least 0 whatever
the CFVs, the parent gather and the previous regrets were. -/
theorem compute_regrets_nonneg (L : Nat → LayerMeta) (d : Nat)
    (regretsD : T3 (Nat → Nat → ℚ)) (cfvsD cfvsParent : T3 (Nat → Nat → Nat → ℚ))
    (maxN : ℚ) (hmax : 0 ≤ maxN) (a b n bt h : Nat) :
    0 ≤ computeRegretsStep L d regretsD cfvsD cfvsParent maxN a b n bt h := by
  simp only [computeRegretsStep, npClip]
  exact le_min (le_max_right _ _) hmax

/-- Witness for C3 at a concrete entry: negative accumulated regret, concrete
CFVs, clip ceiling 1. -/
theorem compute_regrets_nonneg_witness :
    (0 : ℚ) ≤ 1 ∧
    0 ≤ computeRegretsStep (fun _ => ⟨2, 1, 1, 1, 0⟩) 1 (fun _ _ _ _ _ => -3)
        (fun _ _ _ _ _ _ => 2) (fun _ _ _ _ _ _ => 5) 1 0 0 0 0 0 :=
  ⟨by decide,
   compute_regrets_nonneg (fun _ => ⟨2, 1, 1, 1, 0⟩) 1 (fun _ _ _ _ _ => -3)
      (fun _ _ _ _ _ _ => 2) (fun _ _ _ _ _ _ => 5) 1 (by decide) 0 0 0 0 0⟩

/-- The accumulated root average CFV is the sum of the per-iteration CFVs over
exactly the iterations passing the `iter > cfr_skip_iters` guard. -/
theorem averageCfvsAfterLoop_eq_sum (cfrIters skipIters : Nat) (cfvs : Nat → ℚ) :
    averageCfvsAfterLoop cfrIters skipIters cfvs =
      ∑ i ∈ accumulatedIters cfrIters skipIters, cfvs i := by
  induction cfrIters with
  | zero => simp [averageCfvsAfterLoop, accumulatedIters]
  | succ n ih =>
    have hstep : averageCfvsAfterLoop (n+1) skipIters cfvs =
        cumulateAverageCfvs skipIters (averageCfvsAfterLoop n skipIters cfvs) (cfvs n) n := by
      simp only [averageCfvsAfterLoop, List.range_succ, List.foldl_append, List.foldl_cons,
        List.foldl_nil]
    rw [hstep, ih]
    simp only [accumulatedIters, Finset.range_succ, Finset.filter_insert]
    by_cases hlt : skipIters < n
    · rw [if_pos hlt, Finset.sum_insert (by simp)]
      simp [cumulateAverageCfvs, hlt, add_comm]
    · rw [if_neg hlt]
      simp [cumulateAverageCfvs, hlt]

/-- C1 (code bug): with `cfr_iters = 2` and `cfr_skip_iters = 0` and every
iteration's root CFV equal to 1, the loop accumulates exactly one iteration
(only `iter = 1` passes the 0-based guard `iter > cfr_skip_iters`, so the sum
is 1), yet `_compute_normalize_average_cfvs` divides by
`cfr_iters - cfr_skip_iters = 2`, producing 1/2: the divisor does not equal
the number of iterations whose CFVs were accumulated. -/
theorem cumulate_average_cfvs_divisor_mismatch :
    (accumulatedIters 2 0).card = 1 ∧
    averageCfvsAfterLoop 2 0 (fun _ => 1) = 1 ∧
    normalizeAverageCfvs 2 0 (averageCfvsAfterLoop 2 0 (fun _ => 1)) = 1 / 2 ∧
    ((2 : ℚ) - (0 : ℚ)) ≠ (((accumulatedIters 2 0).card : Nat) : ℚ) := by
  have hcard : (accumulatedIters 2 0).card = 1 := by decide
  have hloop : averageCfvsAfterLoop 2 0 (fun _ => 1) = 1 := by
    norm_num [averageCfvsAfterLoop, cumulateAverageCfvs, List.range_succ]
  refine ⟨hcard, hloop, ?_, ?_⟩
  · rw [hloop]
    norm_num [normalizeAverageCfvs]
  · rw [hcard]
    norm_num

/-- C4: the children CFVs reported by `get_results` are the accumulated layer-1
player-0 average CFVs divided, per action slot, by the scaler built from the
root average strategy, the root player's input range and the non-warm-up
iteration count: `(sum over hands of strategy times range) * (cfr_iters -
cfr_skip_iters)`. -/
theorem get_results_children_cfvs_scaler (HC cfrIters skipIters : Nat)
    (averageCfvs1P0 averageStrategies : Nat → Nat → Nat → ℚ)
    (ranges0P0 : Nat → Nat → ℚ) (a bt h : Nat) :
    childrenCfvs HC cfrIters skipIters averageCfvs1P0 averageStrategies ranges0P0 a bt h =
      averageCfvs1P0 a bt h /
        ((∑ h2 ∈ Finset.range HC, averageStrategies a bt h2 * ranges0P0 bt h2) *
          ((cfrIters : ℚ) - (skipIters : ℚ))) := rfl

/-- The numpy sum of finitely many finite values is the finite value of the sum. -/
theorem npSumA_val (A : Nat) (f : Nat → NpF) (q : Nat → ℚ)
    (hf : ∀ a, a < A → f a = NpF.val (q a)) :
    npSumA A f = NpF.val (∑ a ∈ Finset.range A, q a) := by
  induction A with
  | zero => simp [npSumA]
  | succ A ih =>
    rw [npSumA, ih (fun a ha => hf a (Nat.lt_succ_of_lt ha)), hf A (Nat.lt_succ_self A),
      Finset.sum_range_succ]
    rfl

/-- C5: after `_compute_normalize_average_strategies`, a hand whose
average-strategy action sum is zero (all accumulated entries zero, the
zero-total-reach case, in which every divided entry is NaN and so compares
unequal to itself) ends up with the always-fold strategy: 1 on action 0 and 0
on every other action; every normalized entry is a defined (non-NaN) value;
and a hand with a nonzero (hence positive) sum keeps exactly its divided
entries, untouched by the substitution. -/
theorem normalize_average_strategies_degenerate (A : Nat) (avg : Nat → NpF) (q : Nat → ℚ)
    (hA : 0 < A)
    (hval : ∀ a, a < A → avg a = NpF.val (q a))
    (hnn : ∀ a, a < A → 0 ≤ q a) :
    ((∑ a ∈ Finset.range A, q a) = 0 →
        normalizeAverageStrategiesEntry A avg 0 = NpF.val 1 ∧
        (∀ a, 0 < a → a < A → normalizeAverageStrategiesEntry A avg a = NpF.val 0)) ∧
    (∀ a, a < A → (normalizeAverageStrategiesEntry A avg a).neSelf = false) ∧
    ((∑ a ∈ Finset.range A, q a) ≠ 0 →
        ∀ a, a < A →
          normalizeAverageStrategiesEntry A avg a =
            NpF.val (q a / ∑ a2 ∈ Finset.range A, q a2)) := by
  have hsum : npSumA A avg = NpF.val (∑ a ∈ Finset.range A, q a) := npSumA_val A avg q hval
  have hzero_case : (∑ a ∈ Finset.range A, q a) = 0 →
      normalizeAverageStrategiesEntry A avg 0 = NpF.val 1 ∧
      (∀ a, 0 < a → a < A → normalizeAverageStrategiesEntry A avg a = NpF.val 0) := by
    intro hS
    have hz : ∀ a, a < A → q a = 0 := by
      intro a ha
      have hall := (Finset.sum_eq_zero_iff_of_nonneg
        (fun i hi => hnn i (Finset.mem_range.mp hi))).mp hS
      exact hall a (Finset.mem_range.mpr ha)
    have hdiv : ∀ a, a < A → (avg a).div (npSumA A avg) = NpF.nan := by
      intro a ha
      rw [hsum, hS, hval a ha, hz a ha]
      simp [NpF.div]
    constructor
    · have h0 := hdiv 0 hA
      simp [normalizeAverageStrategiesEntry, h0, NpF.neSelf]
    · intro a hpos ha
      have hd := hdiv a ha
      have hne : ¬ a = 0 := Nat.pos_iff_ne_zero.mp hpos
      simp [normalizeAverageStrategiesEntry, hd, hne, NpF.neSelf]
  have hpos_case : (∑ a ∈ Finset.range A, q a) ≠ 0 →
      ∀ a, a < A →
        normalizeAverageStrategiesEntry A avg a =
          NpF.val (q a / ∑ a2 ∈ Finset.range A, q a2) := by
    intro hS a ha
    have hdiv : (avg a).div (npSumA A avg) =
        NpF.val (q a / ∑ a2 ∈ Finset.range A, q a2) := by
      rw [hsum, hval a ha]
      simp [NpF.div, hS]
    by_cases h0 : a = 0
    · subst h0
      simp [normalizeAverageStrategiesEntry, hdiv, NpF.neSelf]
    · simp [normalizeAverageStrategiesEntry, hdiv, h0, NpF.neSelf]
  refine ⟨hzero_case, ?_, hpos_case⟩
  intro a ha
  by_cases hS : (∑ a2 ∈ Finset.range A, q a2) = 0
  · rcases hzero_case hS with ⟨h0, hrest⟩
    by_cases ha0 : a = 0
    · subst ha0
      rw [h0]
      rfl
    · rw [hrest a (Nat.pos_iff_ne_zero.mpr ha0) ha]
      rfl
  · rw [hpos_case hS a ha]
    rfl

/-- Witness for C5 at a concrete degenerate hand: one action, accumulated
average strategy zero; the normalized strategy is forced to fold. -/
theorem normalize_average_strategies_degenerate_witness :
    0 < 1 ∧ (∑ a ∈ Finset.range 1, (fun _ => (0 : ℚ)) a) = 0 ∧
    normalizeAverageStrategiesEntry 1 (fun _ => NpF.val 0) 0 = NpF.val 1 :=
  ⟨Nat.one_pos, by simp,
   ((normalize_average_strategies_degenerate 1 (fun _ => NpF.val 0) (fun _ => 0)
      Nat.one_pos (fun _ _ => rfl) (fun _ _ => le_refl 0)).1 (by simp)).1⟩

/-- A list commutes past the flattening of its own replicas. -/
theorem flatten_replicate_comm {α : Type} (n : Nat) (l : List α) :
    l ++ List.flatten (List.replicate n l) = List.flatten (List.replicate n l) ++ l := by
  induction n with
  | zero => simp
  | succ n ih =>
    rw [List.replicate_succ, List.flatten_cons, List.append_assoc, ← ih]

/-- Flattening one more replicated copy appends it at the end. -/
theorem flatten_replicate_succ {α : Type} (n : Nat) (l : List α) :
    List.flatten (List.replicate (n+1) l) = List.flatten (List.replicate n l) ++ l := by
  rw [List.replicate_succ, List.flatten_cons, flatten_replicate_comm]

/-- The main loop executes its phase block once per iteration, in order. -/
theorem mainLoopTrace_eq (n : Nat) :
    mainLoopTrace n = List.flatten (List.replicate n iterationPhases) := by
  induction n with
  | zero => rfl
  | succ n ih =>
    show mainLoopTrace n ++ iterationPhases = _
    rw [ih, flatten_replicate_succ]

/-- C6: a `resolve` or `resolve_first_node` call runs exactly `cfr_iters` CFR+
iterations, each consisting of — in order — the opponent-range step, regret
matching, range propagation, average-strategy update, terminal and depth-limit
value evaluation, CFV back-propagation, regret update, and average-CFV
accumulation; after the loop the averaged strategy is normalized and then the
averaged root CFVs. -/
theorem resolve_phase_order (n : Nat) :
    resolveTrace n =
      List.flatten (List.replicate n
        [Phase.setOpponentStartingRange, Phase.computeCurrentStrategies, Phase.computeRanges,
         Phase.computeUpdateAverageStrategies, Phase.computeTerminalEquities, Phase.computeCfvs,
         Phase.computeRegrets, Phase.computeCumulateAverageCfvs]) ++
        [Phase.computeNormalizeAverageStrategies, Phase.computeNormalizeAverageCfvs] ∧
    resolveFirstNodeTrace n = resolveTrace n := by
  refine ⟨?_, rfl⟩
  show computeTrace n = _
  unfold computeTrace
  rw [mainLoopTrace_eq]
  rfl

/-- C7: during `_compute`, if opponent CFVs were supplied to `resolve`
(`reconstruction_opponent_cfvs` set), the reconstruction gadget is invoked
exactly once per iteration — the call trace over `n` iterations is exactly one
call per iteration index, in order, each receiving the player-0 layer-0 CFV
slice current at the start of that iteration together with the iteration index
— and the state handed to that iteration's regret matching carries the
gadget's output as the player-1 (opponent) range slice, all other fields
unchanged; for a root resolve (no opponent CFVs) the gadget is never invoked. -/
theorem set_opponent_starting_range_contract {α ρ σ β : Type}
    (gadget : α → Nat → ρ) (ph : IterPhases α ρ σ) (s0 : GadgetLayerState α ρ σ) :
    (∀ n, gadgetCallTrace (none : Option β) gadget ph s0 n = []) ∧
    (∀ (c : β) (n : Nat),
        gadgetCallTrace (some c) gadget ph s0 n =
          (List.range n).map
            (fun i => ((iterStartState (some c) gadget ph s0 i).cfvs0, i))) ∧
    (∀ (c : β) (i : Nat),
        (setOpponentStartingRangeStep (some c) gadget
            (iterStartState (some c) gadget ph s0 i) i).1 =
          { iterStartState (some c) gadget ph s0 i with
              ranges1 := gadget (iterStartState (some c) gadget ph s0 i).cfvs0 i }) := by
  refine ⟨?_, ?_, fun c i => rfl⟩
  · intro n
    induction n with
    | zero => rfl
    | succ n ih =>
      show (gadgetComputeAux (none : Option β) gadget ph s0 n).2 ++ _ = []
      rw [show (gadgetIterationBody (none : Option β) gadget ph
          (gadgetComputeAux (none : Option β) gadget ph s0 n).1 n).2 = [] from rfl]
      rw [List.append_nil]
      exact ih
  · intro c n
    induction n with
    | zero => rfl
    | succ n ih =>
      show (gadgetComputeAux (some c) gadget ph s0 n).2 ++ _ = _
      rw [List.range_succ, List.map_append, List.map_cons, List.map_nil]
      rw [show (gadgetIterationBody (some c) gadget ph
          (gadgetComputeAux (some c) gadget ph s0 n).1 n).2 =
          [((iterStartState (some c) gadget ph s0 n).cfvs0, n)] from rfl]
      exact congrArg (fun l => l ++ [((iterStartState (some c) gadget ph s0 n).cfvs0, n)]) ih

/-- C8: on a freshly constructed instance, `get_results` includes `root_cfvs`
and `root_cfvs_both_players` exactly when the resolve went through
`resolve_first_node`; after a `resolve` (opponent CFVs supplied, so the
reconstruction gadget is in play) both are absent.  When present,
`root_cfvs_both_players` swaps the two player slices of the stored
`average_cfvs_data`, and in general `root_cfvs` is produced if and only if
`reconstruction_opponent_cfvs` is unset. -/
theorem get_results_root_cfvs_iff {τ β π γ : Type}
    (seed2 : π → π → τ → τ) (seed1 : π → τ → τ) (compute : τ → τ)
    (averageCfvs : τ → γ × γ) (pr orng : π) (ocfvs : β) (t0 : τ) :
    getResultsRootCfvs averageCfvs
        (resolveFirstNodeCall seed2 compute pr orng (lookaheadInit t0 : LookaheadState τ β)) =
      ⟨some (averageCfvs (compute (seed2 pr orng t0))).2,
       some ((averageCfvs (compute (seed2 pr orng t0))).2,
             (averageCfvs (compute (seed2 pr orng t0))).1)⟩ ∧
    getResultsRootCfvs averageCfvs
        (resolveCall seed1 compute pr ocfvs (lookaheadInit t0 : LookaheadState τ β)) =
      ⟨none, none⟩ ∧
    (∀ s : LookaheadState τ β,
        ((getResultsRootCfvs averageCfvs s).rootCfvs).isSome ↔
          s.reconstructionOpponentCfvs = none) := by
  refine ⟨rfl, rfl, ?_⟩
  intro s
  rcases s with ⟨recon, t⟩
  cases recon with
  | none => simp [getResultsRootCfvs]
  | some c => simp [getResultsRootCfvs]

/-- C9: `get_chance_action_cfv` with an action absent from `action_to_index`
aborts with the lookup failure; with a mapped action it returns the current
player's CFV vector at that action's batch slot of the re-queried box outputs,
scaled by the corresponding next-round pot size. -/
theorem get_chance_action_cfv_contract {B : Type} (actionToIndex : List (Nat × Nat))
    (nextRoundPotSizes : Nat → ℚ) (currentPlayer : Nat)
    (boxOutputs : Nat → Nat → Nat → ℚ)
    (getValueOnBoard : B → (Nat → Nat → Nat → ℚ) → (Nat → Nat → Nat → ℚ))
    (action : Nat) (board : B) :
    (actionToIndex.lookup action = none →
        getChanceActionCfv actionToIndex nextRoundPotSizes currentPlayer boxOutputs
          getValueOnBoard action board = Except.error ()) ∧
    (∀ bi, actionToIndex.lookup action = some bi →
        getChanceActionCfv actionToIndex nextRoundPotSizes currentPlayer boxOutputs
            getValueOnBoard action board =
          Except.ok (fun h =>
            getValueOnBoard board boxOutputs bi currentPlayer h * nextRoundPotSizes bi)) := by
  constructor
  · intro hnone
    simp [getChanceActionCfv, dictLookup, hnone]
  · intro bi hbi
    simp [getChanceActionCfv, dictLookup, hbi]

/-- Witness for C9: with the one-entry mapping `{1 : 0}`, action 2 is unmapped
and fails, action 1 maps to batch slot 0 and returns the slot-0 player-0 CFV
vector scaled by the pot size 3. -/
theorem get_chance_action_cfv_contract_witness :
    ([((1 : Nat), (0 : Nat))].lookup 2 = none) ∧
    getChanceActionCfv [(1, 0)] (fun _ => 3) 0 (fun _ _ _ => 4) (fun _ o => o) 2 () =
      Except.error () ∧
    getChanceActionCfv [(1, 0)] (fun _ => 3) 0 (fun _ _ _ => 4) (fun _ o => o) 1 () =
      Except.ok (fun _ => (4 : ℚ) * 3) :=
  ⟨rfl,
   (get_chance_action_cfv_contract [(1, 0)] (fun _ => 3) 0 (fun _ _ _ => 4)
      (fun _ o => o) 2 ()).1 rfl,
   (get_chance_action_cfv_contract [(1, 0)] (fun _ => 3) 0 (fun _ _ _ => 4)
      (fun _ o => o) 1 ()).2 0 rfl⟩

/-- Decoding the flat position of `(0, b, n)` in the reshaped `[1, s, s2*s3]`
layout back in the original `(_, s2, s3)` layout yields `(b, n / s3, n % s3)`
when `n` is in range. -/
theorem unflat3_flat3 (s2 s3 b n : Nat) (hn : n < s2 * s3) :
    unflat3 s2 s3 (b * (s2 * s3) + n) = (b, n / s3, n % s3) := by
  have hpos : 0 < s2 * s3 := Nat.pos_of_ne_zero (by
    intro h0
    rw [h0] at hn
    exact Nat.not_lt_zero n hn)
  have h1 : (b * (s2 * s3) + n) / (s2 * s3) = b := by
    rw [Nat.add_comm, Nat.add_mul_div_right _ _ hpos, Nat.div_eq_of_lt hn, Nat.zero_add]
  have h2 : (b * (s2 * s3) + n) % (s2 * s3) = n := by
    rw [Nat.add_comm, Nat.add_mul_mod_self_right, Nat.mod_eq_of_lt hn]
  have h3 : (b * (s2 * s3) + n) % s3 = n % s3 := by
    have hb : b * (s2 * s3) = b * s2 * s3 := by ring
    rw [hb, Nat.add_comm, Nat.add_mul_mod_self_right]
  simp [unflat3, h1, h2, h3]

/-- Evaluation of one `_compute_ranges` step at an in-range slot: the slice,
transpose, reshape and broadcast amount to reading the layer-`d` slot given by
`parentCoord`, and only the acting player's entry is scaled by the strategy. -/
theorem computeRangesStep_eval (L : Nat → LayerMeta) (d : Nat)
    (rangesD : T3 (Nat → Nat → Nat → ℚ)) (strategyNext : T3 (Nat → Nat → ℚ))
    (a b n bt p h : Nat)
    (hshape : prevActionsCount L d - prevTerminalActionsCount L d = prevBetsCount L d)
    (hpos : 0 < prevBetsCount L d)
    (hn : n < nodesCount L d * gpNonallinBetsCount L d) :
    computeRangesStep L d rangesD strategyNext a b n bt p h =
      rangesD (parentCoord L d b n).1 (parentCoord L d b n).2.1
          (parentCoord L d b n).2.2 bt p h *
        (if p = (L d).actingPlayer then strategyNext a b n bt h else 1) := by
  have hX : (prevActionsCount L d - prevTerminalActionsCount L d) * nodesCount L d *
      gpNonallinBetsCount L d / prevBetsCount L d =
      nodesCount L d * gpNonallinBetsCount L d := by
    rw [hshape, Nat.mul_assoc, Nat.mul_div_cancel_left _ hpos]
  simp only [computeRangesStep, broadcast0, reshape3, transpose12, slice0From, hX, flat3,
    Nat.zero_mul, Nat.zero_add, unflat3_flat3 (nodesCount L d) (gpNonallinBetsCount L d) b n hn,
    parentCoord]

/-- C2: in every range-propagation step of `_compute_ranges` the next layer's
ranges are the current layer's inner-node ranges broadcast into the next
layer's shape — each in-range layer-`d+1` slot reads the layer-`d` slot given
by `parentCoord` — with only the acting player's sub-range multiplied by that
player's freshly computed strategy and the non-acting player's reach carried
into the next layer unchanged (factor 1); consequently, starting from the
seeded root ranges, every in-range slot of every layer holds the root entry
for that player and hand times the product of that player's ancestor
strategies along the path from the root.  The hypotheses are the tree
builder's shape invariants: every layer's actions split into terminal actions
plus bets, and every layer has at least one bet. -/
theorem compute_ranges_reach
    (L : Nat → LayerMeta) (strategy : Nat → T3 (Nat → Nat → ℚ))
    (playerRange opponentRange : Nat → Nat → ℚ)
    (hA : ∀ e, (L e).actionsCount = (L e).terminalActionsCount + (L e).betsCount)
    (hB : ∀ e, 0 < (L e).betsCount) :
    (∀ (d : Nat) (rangesD : T3 (Nat → Nat → Nat → ℚ)) (strategyNext : T3 (Nat → Nat → ℚ))
        (a b n bt p h : Nat), n < nodesCount L (d+1) →
        computeRangesStep L d rangesD strategyNext a b n bt p h =
          rangesD (parentCoord L d b n).1 (parentCoord L d b n).2.1
              (parentCoord L d b n).2.2 bt p h *
            (if p = (L d).actingPlayer then strategyNext a b n bt h else 1)) ∧
    (∀ (d a b n bt p h : Nat), n < nodesCount L d →
        rangesData L strategy (seedRoot playerRange opponentRange) d a b n bt p h =
          seedRoot playerRange opponentRange 0 0 0 bt p h *
            reachProd L strategy d a b n bt p h) := by
  have hpos : ∀ e, 0 < prevBetsCount L e := by
    intro e
    by_cases he : e = 0
    · simp [prevBetsCount, he]
    · simp [prevBetsCount, he, hB]
  have hshape : ∀ e, prevActionsCount L e - prevTerminalActionsCount L e = prevBetsCount L e := by
    intro e
    by_cases he : e = 0
    · simp [prevActionsCount, prevTerminalActionsCount, prevBetsCount, he]
    · simp only [prevActionsCount, prevTerminalActionsCount, prevBetsCount, if_neg he]
      rw [hA (e-1)]
      omega
  constructor
  · intro d rD sN a b n bt p h hn
    exact computeRangesStep_eval L d rD sN a b n bt p h (hshape d) (hpos d) hn
  · intro d
    induction d with
    | zero =>
      intro a b n bt p h _
      simp [rangesData, seedRoot, reachProd]
    | succ d ih =>
      intro a b n bt p h hn
      rw [show nodesCount L (d+1) = nodesCount L d * gpNonallinBetsCount L d from rfl] at hn
      have hg : 0 < gpNonallinBetsCount L d := by
        rcases Nat.eq_zero_or_pos (gpNonallinBetsCount L d) with h0 | h0
        · rw [h0, Nat.mul_zero] at hn
          exact absurd hn (Nat.not_lt_zero n)
        · exact h0
      have hsub : n / gpNonallinBetsCount L d < nodesCount L d := by
        rw [Nat.div_lt_iff_lt_mul hg]
        exact hn
      have hstep := computeRangesStep_eval L d
        (rangesData L strategy (seedRoot playerRange opponentRange) d) (strategy (d+1))
        a b n bt p h (hshape d) (hpos d) hn
      rw [show rangesData L strategy (seedRoot playerRange opponentRange) (d+1) =
          computeRangesStep L d (rangesData L strategy (seedRoot playerRange opponentRange) d)
            (strategy (d+1)) from rfl]
      rw [hstep]
      rw [ih (parentCoord L d b n).1 (parentCoord L d b n).2.1 (parentCoord L d b n).2.2
        bt p h hsub]
      simp only [reachProd]
      ring

/-- Witness for C2 on the toy metadata, at a slot two layers below the root. -/
theorem compute_ranges_reach_witness :
    (∀ e, (toyMeta e).actionsCount = (toyMeta e).terminalActionsCount + (toyMeta e).betsCount) ∧
    rangesData toyMeta toyStrategy
        (seedRoot (fun _ _ => (1 : ℚ) / 3) (fun _ _ => (1 : ℚ) / 5)) 2 0 0 0 0 0 0 =
      seedRoot (fun _ _ => (1 : ℚ) / 3) (fun _ _ => (1 : ℚ) / 5) 0 0 0 0 0 0 *
        reachProd toyMeta toyStrategy 2 0 0 0 0 0 0 :=
  ⟨fun _ => rfl,
   (compute_ranges_reach toyMeta toyStrategy (fun _ _ => (1 : ℚ) / 3) (fun _ _ => (1 : ℚ) / 5)
      (fun _ => rfl) (fun _ => Nat.one_pos)).2 2 0 0 0 0 0 0 (by decide)⟩
